import Mathlib

/-!
Verification of the seismotail streaming core against its specification.

The Rust sources are embedded shallowly:
* machine floats (`f32`/`f64`) become exact rationals `ℚ`; transcendental
  primitives of the float library (`sqrt`, `log10`, and the trigonometric
  haversine distance) are abstracted as function parameters, since they are
  external to the repository's own code;
* `VecDeque` becomes a `List` with the oldest element at the head;
* methods that mutate `&mut self` return the updated value explicitly.
-/

namespace Seismotail

/-- Result of a deduplication check, embedding `DedupeResult` from src/dedup.rs. -/
inductive DedupeResult where
  | New
  | Updated
  | Duplicate
deriving DecidableEq, Repr

/-- An entry in the deduplication ring, embedding `SeenEntry` from src/dedup.rs. -/
structure SeenEntry where
  id : String
  updated : ℤ
deriving DecidableEq, Repr

/-- The bounded dedupe ring, embedding `DedupeRing` from src/dedup.rs.  The field
`seen` is the `VecDeque` with the oldest entry at the head of the list and the
newest at the tail. -/
structure DedupeRing where
  seen : List SeenEntry
  capacity : ℕ
  total_seen : ℕ
  total_dupes : ℕ
deriving DecidableEq, Repr

/-- Embeds `DedupeRing::new` (the zero-capacity panic is reflected by the
hypotheses `0 < capacity` carried by the theorems below). -/
def DedupeRing.new (capacity : ℕ) : DedupeRing :=
  { seen := [], capacity := capacity, total_seen := 0, total_dupes := 0 }

/-- Embeds `self.seen.iter().position(|e| e.id == id)`, scanning front to back. -/
def findPos (id : String) : List SeenEntry → Option ℕ
  | [] => none
  | e :: es => if e.id = id then some 0 else (findPos id es).map (· + 1)

/-- Embeds `DedupeRing::find_position` from src/dedup.rs. -/
def DedupeRing.find_position (r : DedupeRing) (id : String) : Option ℕ :=
  findPos id r.seen

/-- Embeds `DedupeRing::insert` from src/dedup.rs: pop the oldest (front) entry
when at capacity, then push the new entry at the back. -/
def DedupeRing.insert (r : DedupeRing) (id : String) (updated : ℤ) : DedupeRing :=
  let s := if r.seen.length ≥ r.capacity then r.seen.tail else r.seen
  { r with seen := s ++ [⟨id, updated⟩] }

/-- Embeds `DedupeRing::check_and_mark` from src/dedup.rs.  The Rust method
mutates the ring in place and returns the classification; here it returns the
classification together with the ring after the call. -/
def DedupeRing.check_and_mark (r : DedupeRing) (id : String) (updated : ℤ) :
    DedupeResult × DedupeRing :=
  let r1 : DedupeRing := { r with total_seen := r.total_seen + 1 }
  match r.find_position id with
  | some pos =>
      let entry := r.seen.getD pos ⟨"", 0⟩
      if updated > entry.updated then
        (DedupeResult.Updated, { r1 with seen := r1.seen.set pos ⟨entry.id, updated⟩ })
      else
        (DedupeResult.Duplicate, { r1 with total_dupes := r1.total_dupes + 1 })
  | none => (DedupeResult.New, r1.insert id updated)

/-- Embeds `DedupeRing::len` from src/dedup.rs. -/
def DedupeRing.len (r : DedupeRing) : ℕ := r.seen.length

/-- Embeds `DedupeResult::should_emit` from src/dedup.rs. -/
def DedupeResult.should_emit : DedupeResult → Bool
  | DedupeResult.New => true
  | DedupeResult.Updated => true
  | DedupeResult.Duplicate => false

/-- Runs a sequence of `check_and_mark` calls, threading the ring state. -/
def runCalls (r : DedupeRing) (ops : List (String × ℤ)) : DedupeRing :=
  ops.foldl (fun s op => (s.check_and_mark op.1 op.2).2) r

/-- Concrete event id used by witnesses. -/
def sA : String := "a"

/-- Concrete event id used by witnesses. -/
def sB : String := "b"

/-- Concrete event id used by witnesses. -/
def sC : String := "c"

/-- Concrete id sequence used by witnesses. -/
def wids : ℕ → String
  | 0 => sA
  | 1 => sB
  | _ => sC

/-- Alert severity levels, embedding `AlertLevel` from src/eew.rs. -/
inductive AlertLevel where
  | None
  | Weak
  | Light
  | Moderate
  | Strong
  | Severe
deriving DecidableEq, Repr

/-- Embeds `AlertLevel::from_pga` from src/eew.rs: the Rust guard chain over
f32 comparisons, modelled exactly over `ℚ`. -/
def AlertLevel.from_pga (pga : ℚ) : AlertLevel :=
  if pga ≥ 150 then AlertLevel.Severe
  else if pga ≥ 50 then AlertLevel.Strong
  else if pga ≥ 10 then AlertLevel.Moderate
  else if pga ≥ 3 then AlertLevel.Light
  else if pga ≥ 1 then AlertLevel.Weak
  else AlertLevel.None

/-- Embeds `f32::clamp(lo, hi)` as used in src/eew.rs. -/
def clampQ (x lo hi : ℚ) : ℚ :=
  if x < lo then lo else if x > hi then hi else x

/-- Embeds `estimate_magnitude_from_pga` from src/eew.rs.  The base-10
logarithm of the float library is abstracted as the parameter `lg`. -/
def estimate_magnitude_from_pga (lg : ℚ → ℚ) (pga : ℚ) : Option ℚ :=
  if pga < 1/10 then none
  else some (clampQ (lg pga + 5/2) 1 9)

/-- Embeds `Detection` from src/eew.rs.  The field `ratio_at_trigger` embeds the
Rust field holding the STA over LTA quotient at the trigger instant. -/
structure Detection where
  device_id : String
  timestamp : ℚ
  pga : ℚ
  ratio_at_trigger : ℚ
  estimated_magnitude : Option ℚ
  alert_level : AlertLevel
deriving DecidableEq, Repr

/-- Embeds `StaLtaDetector` from src/eew.rs. -/
structure StaLtaDetector where
  sta_samples : ℕ
  lta_samples : ℕ
  trigger_threshold : ℚ
  detrigger_threshold : ℚ
deriving DecidableEq, Repr

/-- Embeds `AccelerometerRecord` from src/eew.rs (the three axis sample
sequences, the start timestamp `cloud_t`, and the sample rate `sr`). -/
structure AccelerometerRecord where
  device_id : String
  timestamp : ℚ
  x : List ℚ
  y : List ℚ
  z : List ℚ
  sr : ℚ
deriving DecidableEq, Repr

/-- Embeds `StaLtaDetector::calculate_pga`; the float `sqrt` is abstracted as
the parameter `sq`. -/
def calculate_pga (sq : ℚ → ℚ) (x y z : ℚ) : ℚ :=
  sq (x * x + y * y + z * z)

/-- The usable sample count of `detect`:
`record.x.len().min(record.y.len()).min(record.z.len())`. -/
def nSamples (r : AccelerometerRecord) : ℕ :=
  min (min r.x.length r.y.length) r.z.length

/-- The PGA sequence precomputed by `detect` for indices `0..n`. -/
def pgaSeq (sq : ℚ → ℚ) (r : AccelerometerRecord) (n : ℕ) : List ℚ :=
  (List.range n).map fun i =>
    calculate_pga sq (r.x.getD i 0) (r.y.getD i 0) (r.z.getD i 0)

/-- The slice `pga[i.saturating_sub(w)..i]`; natural subtraction saturates
exactly like `usize::saturating_sub`. -/
def winSlice (w : ℕ) (pga : List ℚ) (i : ℕ) : List ℚ :=
  (pga.drop (i - w)).take (i - (i - w))

/-- The short-term average at index `i` of the detect loop. -/
def staAt (d : StaLtaDetector) (pga : List ℚ) (i : ℕ) : ℚ :=
  (winSlice d.sta_samples pga i).sum / (d.sta_samples : ℚ)

/-- The long-term average at index `i` of the detect loop. -/
def ltaAt (d : StaLtaDetector) (pga : List ℚ) (i : ℕ) : ℚ :=
  (winSlice d.lta_samples pga i).sum / (d.lta_samples : ℚ)

/-- The STA over LTA quotient at index `i` of the detect loop. -/
def ratioAt (d : StaLtaDetector) (pga : List ℚ) (i : ℕ) : ℚ :=
  staAt d pga i / ltaAt d pga i

/-- The peak PGA of the short window:
`pga[i.saturating_sub(sta)..i].iter().cloned().fold(0.0, f32::max)`. -/
def peakAt (d : StaLtaDetector) (pga : List ℚ) (i : ℕ) : ℚ :=
  (winSlice d.sta_samples pga i).foldl max 0

/-- The Detection value pushed at trigger index `i` in `StaLtaDetector::detect`. -/
def mkDetection (lg : ℚ → ℚ) (d : StaLtaDetector) (r : AccelerometerRecord)
    (pga : List ℚ) (i : ℕ) : Detection :=
  { device_id := r.device_id
    timestamp := r.timestamp + (i : ℚ) / r.sr
    pga := peakAt d pga i
    ratio_at_trigger := ratioAt d pga i
    estimated_magnitude := estimate_magnitude_from_pga lg (peakAt d pga i)
    alert_level := AlertLevel.from_pga (peakAt d pga i) }

/-- The loop of `StaLtaDetector::detect` from index `i` in trigger state
`triggered`, transcribing the branch structure of the Rust loop body. -/
def detectFrom (lg : ℚ → ℚ) (d : StaLtaDetector) (r : AccelerometerRecord)
    (pga : List ℚ) (n : ℕ) (i : ℕ) (triggered : Bool) : List Detection :=
  if h : i < n then
    if ltaAt d pga i < 1/1000 then
      detectFrom lg d r pga n (i+1) triggered
    else if triggered = false ∧ d.trigger_threshold < ratioAt d pga i then
      mkDetection lg d r pga i :: detectFrom lg d r pga n (i+1) true
    else if triggered = true ∧ ratioAt d pga i < d.detrigger_threshold then
      detectFrom lg d r pga n (i+1) false
    else
      detectFrom lg d r pga n (i+1) triggered
  else []
termination_by n - i

/-- One step of the trigger state machine of the detect loop. -/
def stepState (d : StaLtaDetector) (pga : List ℚ) (b : Bool) (i : ℕ) : Bool :=
  if ltaAt d pga i < 1/1000 then b
  else if b = false ∧ d.trigger_threshold < ratioAt d pga i then true
  else if b = true ∧ ratioAt d pga i < d.detrigger_threshold then false
  else b

/-- The loop emits a Detection at index `i` in state `b` exactly when the index
is not skipped, the state is untriggered, and the quotient exceeds the trigger
threshold. -/
abbrev emitsAt (d : StaLtaDetector) (pga : List ℚ) (b : Bool) (i : ℕ) : Prop :=
  ¬ ltaAt d pga i < 1/1000 ∧ b = false ∧ d.trigger_threshold < ratioAt d pga i

/-- The trigger state of the detect loop before processing index `i`. -/
def stateBefore (d : StaLtaDetector) (pga : List ℚ) : ℕ → Bool
  | 0 => false
  | i + 1 =>
      if i + 1 ≤ d.lta_samples then false
      else stepState d pga (stateBefore d pga i) i

/-- Embeds `StaLtaDetector::detect` from src/eew.rs. -/
def detect (sq lg : ℚ → ℚ) (d : StaLtaDetector) (r : AccelerometerRecord) :
    List Detection :=
  if nSamples r < d.lta_samples then []
  else detectFrom lg d r (pgaSeq sq r (nSamples r)) (nSamples r) d.lta_samples false

/-- The trigger indices of a detect run. -/
def emitIndices (sq : ℚ → ℚ) (d : StaLtaDetector) (r : AccelerometerRecord) : List ℕ :=
  (List.range' d.lta_samples (nSamples r - d.lta_samples)).filter fun j =>
    decide (emitsAt d (pgaSeq sq r (nSamples r))
      (stateBefore d (pgaSeq sq r (nSamples r)) j) j)

/-- Concrete detector used by witnesses: short window 1, long window 2,
trigger threshold 3/2, detrigger threshold 3/4. -/
def dWit : StaLtaDetector :=
  { sta_samples := 1, lta_samples := 2, trigger_threshold := 3/2,
    detrigger_threshold := 3/4 }

/-- Concrete accelerometer record used by witnesses. -/
def rWit : AccelerometerRecord :=
  { device_id := sA, timestamp := 1000, x := [1, 1, 3, 3], y := [0, 0, 0, 0],
    z := [0, 0, 0, 0], sr := 1 }

/-- Concrete record with no samples, used by witnesses. -/
def rEmpty : AccelerometerRecord :=
  { device_id := sA, timestamp := 0, x := [], y := [], z := [], sr := 1 }

/-- Absolute value, a nonnegative stand-in for the abstracted square root in
witnesses. -/
def sqWit (q : ℚ) : ℚ := |q|

/-- Constant stand-in for the abstracted logarithm in witnesses. -/
def lgWit : ℚ → ℚ := fun _ => 1

/-- Bounding box, embedding `BBox` from src/filters.rs. -/
structure BBox where
  min_lat : ℚ
  min_lon : ℚ
  max_lat : ℚ
  max_lon : ℚ
deriving DecidableEq, Repr

/-- Embeds `BBox::contains` from src/filters.rs. -/
def BBox.contains (b : BBox) (lat lon : ℚ) : Bool :=
  decide (lat ≥ b.min_lat) && decide (lat ≤ b.max_lat) &&
    decide (lon ≥ b.min_lon) && decide (lon ≤ b.max_lon)

/-- Radius filter, embedding `RadiusFilter` from src/filters.rs. -/
structure RadiusFilter where
  center_lat : ℚ
  center_lon : ℚ
  radius_km : ℚ
deriving DecidableEq, Repr

/-- Embeds `RadiusFilter::contains` from src/filters.rs; the haversine distance
(floating-point trigonometry) is abstracted as the parameter `dist`. -/
def RadiusFilter.contains (dist : ℚ → ℚ → ℚ → ℚ → ℚ) (rf : RadiusFilter)
    (lat lon : ℚ) : Bool :=
  decide (dist rf.center_lat rf.center_lon lat lon ≤ rf.radius_km)

/-- Event geometry, embedding `Geometry` from src/models.rs (the constant Point
type tag is omitted). -/
structure Geometry where
  coordinates : List ℚ
deriving DecidableEq, Repr

/-- Event properties, embedding the fields of `Properties` from src/models.rs
that the filter logic reads; the remaining metadata fields are never consulted
by `EventFilter::matches`. -/
structure Properties where
  mag : Option ℚ
  alert : Option String
deriving DecidableEq, Repr

/-- A single earthquake event, embedding `Feature` from src/models.rs. -/
structure Feature where
  id : String
  geometry : Geometry
  properties : Properties
deriving DecidableEq, Repr

/-- Embeds `Feature::longitude`: `coordinates.first().copied().unwrap_or(0.0)`. -/
def Feature.longitude (e : Feature) : ℚ :=
  e.geometry.coordinates.getD 0 0

/-- Embeds `Feature::latitude`: `coordinates.get(1).copied().unwrap_or(0.0)`. -/
def Feature.latitude (e : Feature) : ℚ :=
  e.geometry.coordinates.getD 1 0

/-- Embeds `Feature::depth_km`: `coordinates.get(2).copied().unwrap_or(0.0)`. -/
def Feature.depth_km (e : Feature) : ℚ :=
  e.geometry.coordinates.getD 2 0

/-- Combined filter criteria, embedding `EventFilter` from src/filters.rs. -/
structure EventFilter where
  min_magnitude : Option ℚ
  max_depth : Option ℚ
  bbox : Option BBox
  radius : Option RadiusFilter
  significant_only : Bool
deriving Repr

/-- Embeds `EventFilter::check_magnitude`:
`event.properties.mag.map_or(false, |m| m >= min)` when a minimum is set. -/
def EventFilter.check_magnitude (f : EventFilter) (e : Feature) : Bool :=
  match f.min_magnitude with
  | none => true
  | some m =>
      match e.properties.mag with
      | none => false
      | some mg => decide (mg ≥ m)

/-- Embeds `EventFilter::check_depth` from src/filters.rs. -/
def EventFilter.check_depth (f : EventFilter) (e : Feature) : Bool :=
  match f.max_depth with
  | none => true
  | some mx => decide (e.depth_km ≤ mx)

/-- Embeds `EventFilter::check_bbox` from src/filters.rs. -/
def EventFilter.check_bbox (f : EventFilter) (e : Feature) : Bool :=
  match f.bbox with
  | none => true
  | some b => b.contains e.latitude e.longitude

/-- Embeds `EventFilter::check_radius` from src/filters.rs. -/
def EventFilter.check_radius (dist : ℚ → ℚ → ℚ → ℚ → ℚ) (f : EventFilter)
    (e : Feature) : Bool :=
  match f.radius with
  | none => true
  | some rf => RadiusFilter.contains dist rf e.latitude e.longitude

/-- Embeds `EventFilter::check_significant` from src/filters.rs: when the
significant-only flag is set the event must carry an alert tier. -/
def EventFilter.check_significant (f : EventFilter) (e : Feature) : Bool :=
  if f.significant_only = false then true
  else e.properties.alert.isSome

/-- Embeds `EventFilter::matches` from src/filters.rs. -/
def EventFilter.matches (dist : ℚ → ℚ → ℚ → ℚ → ℚ) (f : EventFilter)
    (e : Feature) : Bool :=
  f.check_magnitude e && f.check_depth e && f.check_bbox e &&
    EventFilter.check_radius dist f e && f.check_significant e

theorem findPos_eq_none_iff (id : String) (l : List SeenEntry) :
    findPos id l = none ↔ ∀ e ∈ l, e.id ≠ id := by
  induction l with
  | nil => simp [findPos]
  | cons e es ih =>
    by_cases h : e.id = id <;> simp [findPos, h, ih]

theorem findPos_sound (id : String) (l : List SeenEntry) :
    ∀ p, findPos id l = some p → p < l.length ∧ (l.getD p ⟨"", 0⟩).id = id := by
  induction l with
  | nil => intro p hp; simp [findPos] at hp
  | cons e es ih =>
    intro p hp
    by_cases h : e.id = id
    · simp [findPos, h] at hp
      subst hp
      simpa using h
    · simp [findPos, h] at hp
      obtain ⟨q, hq, rfl⟩ := hp
      have := ih q hq
      simpa [List.getD] using this

/-- C1: `check_and_mark(id, t)` classifies as follows: if `id` is not among the
tracked entries it inserts a new entry `(id, t)` and returns New; if `id` is
present with stored time `s` and `t > s` it overwrites the stored time with `t`
and returns Updated; if `id` is present and `t ≤ s` it returns Duplicate.  In
particular the first call on an empty ring returns New, a repeat with the same
`t` returns Duplicate, a repeat with strictly greater `t` returns Updated, and
a subsequent call with `t` less than or equal to the now-stored time returns
Duplicate. -/
theorem check_and_mark_classification (r : DedupeRing) (id : String) (t : ℤ) :
    ((∀ e ∈ r.seen, e.id ≠ id) →
        (r.check_and_mark id t).1 = DedupeResult.New ∧
        (⟨id, t⟩ : SeenEntry) ∈ (r.check_and_mark id t).2.seen) ∧
    (∀ pos, r.find_position id = some pos →
        (((r.seen.getD pos ⟨"", 0⟩).updated < t →
            (r.check_and_mark id t).1 = DedupeResult.Updated ∧
            (r.check_and_mark id t).2.seen =
              r.seen.set pos ⟨(r.seen.getD pos ⟨"", 0⟩).id, t⟩) ∧
         (t ≤ (r.seen.getD pos ⟨"", 0⟩).updated →
            (r.check_and_mark id t).1 = DedupeResult.Duplicate))) ∧
    (∀ c : ℕ,
        ((DedupeRing.new c).check_and_mark id t).1 = DedupeResult.New ∧
        ((((DedupeRing.new c).check_and_mark id t).2).check_and_mark id t).1 =
          DedupeResult.Duplicate ∧
        ∀ t2 : ℤ, t < t2 →
          ((((DedupeRing.new c).check_and_mark id t).2).check_and_mark id t2).1 =
            DedupeResult.Updated ∧
          ∀ t3 : ℤ, t3 ≤ t2 →
            ((((((DedupeRing.new c).check_and_mark id t).2).check_and_mark id t2).2).check_and_mark
                id t3).1 = DedupeResult.Duplicate) := by
  refine ⟨?_, ?_, ?_⟩
  · intro h
    have hnone : r.find_position id = none :=
      (findPos_eq_none_iff id r.seen).mpr h
    simp [DedupeRing.check_and_mark, hnone, DedupeRing.insert]
  · intro pos hpos
    constructor
    · intro hlt
      have hlt2 : (r.seen[pos]?.getD ⟨"", 0⟩).updated < t := by
        simpa [List.getD] using hlt
      simp [DedupeRing.check_and_mark, hpos, gt_iff_lt, hlt2, List.getD]
    · intro hle
      have hnlt : ¬ ((r.seen[pos]?.getD ⟨"", 0⟩).updated < t) := by
        simpa [List.getD] using not_lt.mpr hle
      simp [DedupeRing.check_and_mark, hpos, gt_iff_lt, hnlt]
  · intro c
    have h1 : ((DedupeRing.new c).check_and_mark id t) =
        (DedupeResult.New,
         { seen := [⟨id, t⟩], capacity := c, total_seen := 1, total_dupes := 0 }) := by
      simp [DedupeRing.check_and_mark, DedupeRing.find_position, findPos,
        DedupeRing.new, DedupeRing.insert]
    have h2 : ∀ u : ℤ, ¬ (t < u) →
        (({ seen := [⟨id, t⟩], capacity := c, total_seen := 1,
            total_dupes := 0 } : DedupeRing).check_and_mark id u).1 =
          DedupeResult.Duplicate := by
      intro u hu
      simp [DedupeRing.check_and_mark, DedupeRing.find_position, findPos, gt_iff_lt, hu]
    have h3 : ∀ u : ℤ, t < u →
        (({ seen := [⟨id, t⟩], capacity := c, total_seen := 1,
            total_dupes := 0 } : DedupeRing).check_and_mark id u) =
          (DedupeResult.Updated,
           { seen := [⟨id, u⟩], capacity := c, total_seen := 2, total_dupes := 0 }) := by
      intro u hu
      simp [DedupeRing.check_and_mark, DedupeRing.find_position, findPos, gt_iff_lt, hu]
    refine ⟨by simp [h1], by simp [h1, h2 t (lt_irrefl t)], ?_⟩
    intro t2 ht2
    refine ⟨by simp [h1, h3 t2 ht2], ?_⟩
    intro t3 ht3
    have h4 : ∀ u : ℤ, ¬ (t2 < u) →
        (({ seen := [⟨id, t2⟩], capacity := c, total_seen := 2,
            total_dupes := 0 } : DedupeRing).check_and_mark id u).1 =
          DedupeResult.Duplicate := by
      intro u hu
      simp [DedupeRing.check_and_mark, DedupeRing.find_position, findPos, gt_iff_lt, hu]
    simp [h1, h3 t2 ht2, h4 t3 (not_lt.mpr ht3)]

/-- Witness for C1 at a concrete input: the first call on an empty ring is New
and the entry is inserted. -/
theorem check_and_mark_classification_witness :
    ((DedupeRing.new 2).check_and_mark sA 5).1 = DedupeResult.New ∧
    (⟨sA, 5⟩ : SeenEntry) ∈ ((DedupeRing.new 2).check_and_mark sA 5).2.seen :=
  (check_and_mark_classification (DedupeRing.new 2) sA 5).1
    (by simp [DedupeRing.new])


/-- C9: when `check_and_mark` returns Duplicate the ring's tracked entries are
completely unchanged (no insertion, eviction or timestamp overwrite; only the
`total_seen` and `total_dupes` counters advance); when it returns Updated, only
the matched entry's stored timestamp changes — its position, every other entry
and `len()` are unchanged, and `total_dupes` does not advance. -/
theorem check_and_mark_frame (r : DedupeRing) (id : String) (t : ℤ) :
    ((r.check_and_mark id t).1 = DedupeResult.Duplicate →
        (r.check_and_mark id t).2.seen = r.seen ∧
        (r.check_and_mark id t).2.total_seen = r.total_seen + 1 ∧
        (r.check_and_mark id t).2.total_dupes = r.total_dupes + 1 ∧
        (r.check_and_mark id t).2.capacity = r.capacity) ∧
    (∀ pos, r.find_position id = some pos →
        (r.check_and_mark id t).1 = DedupeResult.Updated →
        (r.check_and_mark id t).2.seen.length = r.seen.length ∧
        (∀ j, j ≠ pos →
          (r.check_and_mark id t).2.seen.getD j ⟨"", 0⟩ = r.seen.getD j ⟨"", 0⟩) ∧
        ((r.check_and_mark id t).2.seen.getD pos ⟨"", 0⟩).id =
          (r.seen.getD pos ⟨"", 0⟩).id ∧
        ((r.check_and_mark id t).2.seen.getD pos ⟨"", 0⟩).updated = t ∧
        (r.check_and_mark id t).2.total_seen = r.total_seen + 1 ∧
        (r.check_and_mark id t).2.total_dupes = r.total_dupes ∧
        (r.check_and_mark id t).2.capacity = r.capacity) := by
  rcases hfp : r.find_position id with _ | pos
  · constructor
    · intro hres
      simp [DedupeRing.check_and_mark, hfp] at hres
    · intro pos hpos
      simp at hpos
  · by_cases hlt : (r.seen[pos]?.getD ⟨"", 0⟩).updated < t
    · have hres : r.check_and_mark id t =
          (DedupeResult.Updated,
           { r with seen := r.seen.set pos ⟨(r.seen[pos]?.getD ⟨"", 0⟩).id, t⟩,
                    total_seen := r.total_seen + 1 }) := by
        simp [DedupeRing.check_and_mark, hfp, gt_iff_lt, hlt, List.getD]
      have hposlen : pos < r.seen.length := (findPos_sound id r.seen pos hfp).1
      constructor
      · intro hdup; simp [hres] at hdup
      · intro pos2 hpos2 _
        have hpe : pos = pos2 := Option.some_inj.mp hpos2
        subst hpe
        refine ⟨by simp [hres], ?_, ?_, ?_, by simp [hres], by simp [hres], by simp [hres]⟩
        · intro j hj
          simp only [hres, List.getD]
          rw [List.get?_set_ne _ _ (Ne.symm hj)]
        · simp only [hres, List.getD]
          rw [List.get?_set_eq_of_lt _ hposlen]
          simp
        · simp only [hres, List.getD]
          rw [List.get?_set_eq_of_lt _ hposlen]
          simp
    · have hres : r.check_and_mark id t =
          (DedupeResult.Duplicate,
           { r with total_seen := r.total_seen + 1, total_dupes := r.total_dupes + 1 }) := by
        simp [DedupeRing.check_and_mark, hfp, gt_iff_lt, hlt, List.getD]
      constructor
      · intro _
        exact ⟨by simp [hres], by simp [hres], by simp [hres], by simp [hres]⟩
      · intro pos2 hpos2 hupd
        simp [hres] at hupd

/-- Witness for C9 at concrete inputs: a Duplicate call leaves the entries
unchanged, and an Updated call rewrites only the matched entry's timestamp. -/
theorem check_and_mark_frame_witness :
    (({ seen := [⟨sA, 5⟩, ⟨sB, 7⟩], capacity := 3, total_seen := 2,
          total_dupes := 0 } : DedupeRing).check_and_mark sA 5).2.seen =
        [⟨sA, 5⟩, ⟨sB, 7⟩] ∧
      (({ seen := [⟨sA, 5⟩, ⟨sB, 7⟩], capacity := 3, total_seen := 2,
          total_dupes := 0 } : DedupeRing).check_and_mark sA 6).2.seen.getD 1 ⟨"", 0⟩ =
        ⟨sB, 7⟩ ∧
      ((({ seen := [⟨sA, 5⟩, ⟨sB, 7⟩], capacity := 3, total_seen := 2,
               total_dupes := 0 } : DedupeRing).check_and_mark sA 6).2.seen.getD 0
          ⟨"", 0⟩).updated = 6 := by
  refine ⟨((check_and_mark_frame _ sA 5).1 (by simp [DedupeRing.check_and_mark,
      DedupeRing.find_position, findPos, sA, sB])).1, ?_, ?_⟩
  · have h := (check_and_mark_frame
        ({ seen := [⟨sA, 5⟩, ⟨sB, 7⟩], capacity := 3, total_seen := 2,
           total_dupes := 0 } : DedupeRing) sA 6).2 0
      (by simp [DedupeRing.find_position, findPos])
      (by simp [DedupeRing.check_and_mark, DedupeRing.find_position, findPos, List.getD])
    have h2 := h.2.1 1 (by omega)
    rw [h2]
    simp [List.getD]
  · have h := (check_and_mark_frame
        ({ seen := [⟨sA, 5⟩, ⟨sB, 7⟩], capacity := 3, total_seen := 2,
           total_dupes := 0 } : DedupeRing) sA 6).2 0
      (by simp [DedupeRing.find_position, findPos])
      (by simp [DedupeRing.check_and_mark, DedupeRing.find_position, findPos, List.getD])
    exact h.2.2.2.1

theorem check_and_mark_capacity (r : DedupeRing) (id : String) (t : ℤ) :
    (r.check_and_mark id t).2.capacity = r.capacity := by
  rcases hfp : r.find_position id with _ | pos
  · simp [DedupeRing.check_and_mark, hfp, DedupeRing.insert]
  · by_cases hlt : (r.seen[pos]?.getD ⟨"", 0⟩).updated < t <;>
      simp [DedupeRing.check_and_mark, hfp, gt_iff_lt, hlt, List.getD]

theorem check_and_mark_len_le (r : DedupeRing) (id : String) (t : ℤ)
    (hcap : 0 < r.capacity) (h : r.seen.length ≤ r.capacity) :
    (r.check_and_mark id t).2.seen.length ≤ r.capacity := by
  rcases hfp : r.find_position id with _ | pos
  · by_cases hful : r.seen.length ≥ r.capacity
    · simp [DedupeRing.check_and_mark, hfp, DedupeRing.insert, hful, List.length_tail]
      omega
    · simp [DedupeRing.check_and_mark, hfp, DedupeRing.insert, hful]
      omega
  · by_cases hlt : (r.seen[pos]?.getD ⟨"", 0⟩).updated < t <;>
      simp [DedupeRing.check_and_mark, hfp, gt_iff_lt, hlt, List.getD, h]

theorem runCalls_inv (k : ℕ) (hk : 0 < k) :
    ∀ (ops : List (String × ℤ)) (r : DedupeRing), r.capacity = k →
      r.seen.length ≤ k →
      (runCalls r ops).capacity = k ∧ (runCalls r ops).seen.length ≤ k := by
  intro ops
  induction ops with
  | nil => intro r h1 h2; simpa [runCalls] using ⟨h1, h2⟩
  | cons op rest ih =>
    intro r h1 h2
    have hcap := check_and_mark_capacity r op.1 op.2
    have hlen : (r.check_and_mark op.1 op.2).2.seen.length ≤ k := by
      have := check_and_mark_len_le r op.1 op.2 (by omega) (by omega)
      omega
    have hstep : runCalls r (op :: rest) = runCalls (r.check_and_mark op.1 op.2).2 rest := by
      simp [runCalls]
    rw [hstep]
    exact ih _ (by omega) hlen

theorem check_and_mark_new_of_fresh (r : DedupeRing) (id : String) (t : ℤ)
    (h : ∀ e ∈ r.seen, e.id ≠ id) :
    (r.check_and_mark id t).1 = DedupeResult.New := by
  have hnone : r.find_position id = none := (findPos_eq_none_iff id r.seen).mpr h
  simp [DedupeRing.check_and_mark, hnone]

theorem check_and_mark_result_of_entry (r : DedupeRing) (id : String) (t s : ℤ) (p : ℕ)
    (hfp : r.find_position id = some p)
    (hgd : r.seen[p]?.getD ⟨"", 0⟩ = ⟨id, s⟩) :
    (r.check_and_mark id t).1 =
      if s < t then DedupeResult.Updated else DedupeResult.Duplicate := by
  by_cases hlt : s < t <;>
    simp [DedupeRing.check_and_mark, hfp, gt_iff_lt, List.getD, hgd, hlt]

theorem runCalls_fresh (k : ℕ) (ids : ℕ → String) (ts : ℕ → ℤ)
    (hinj : ∀ i j, i ≤ k → j ≤ k → ids i = ids j → i = j) :
    ∀ m, m ≤ k →
      (runCalls (DedupeRing.new k) ((List.range m).map fun j => (ids j, ts j))).seen =
        (List.range m).map (fun j => (⟨ids j, ts j⟩ : SeenEntry)) ∧
      (runCalls (DedupeRing.new k)
        ((List.range m).map fun j => (ids j, ts j))).capacity = k := by
  intro m
  induction m with
  | zero => intro _; simp [runCalls, DedupeRing.new]
  | succ m ih =>
    intro hm
    obtain ⟨hseen, hcap⟩ := ih (by omega)
    have hsplit : runCalls (DedupeRing.new k) ((List.range (m+1)).map fun j => (ids j, ts j)) =
        ((runCalls (DedupeRing.new k)
          ((List.range m).map fun j => (ids j, ts j))).check_and_mark (ids m) (ts m)).2 := by
      rw [List.range_succ, List.map_append]
      simp [runCalls, List.foldl_append]
    have hfresh : ∀ e ∈ (runCalls (DedupeRing.new k)
        ((List.range m).map fun j => (ids j, ts j))).seen, e.id ≠ ids m := by
      intro e he
      rw [hseen] at he
      simp only [List.mem_map, List.mem_range] at he
      obtain ⟨j, hj, rfl⟩ := he
      intro hcontra
      have := hinj j m (by omega) (by omega) hcontra
      omega
    have hnone : (runCalls (DedupeRing.new k)
        ((List.range m).map fun j => (ids j, ts j))).find_position (ids m) = none :=
      (findPos_eq_none_iff _ _).mpr hfresh
    have hnoevict : ¬ ((runCalls (DedupeRing.new k)
        ((List.range m).map fun j => (ids j, ts j))).seen.length ≥
          (runCalls (DedupeRing.new k)
            ((List.range m).map fun j => (ids j, ts j))).capacity) := by
      rw [hseen, hcap]
      simp
      omega
    constructor
    · rw [hsplit]
      simp only [DedupeRing.check_and_mark, hnone, DedupeRing.insert, hnoevict, if_neg]
      rw [hseen, List.range_succ, List.map_append]
      simp
    · rw [hsplit, check_and_mark_capacity]
      exact hcap

/-- C2: for a ring of capacity `k > 0`, `len()` never exceeds `k` over any
sequence of `check_and_mark` calls; after inserting `k+1` distinct ids in order
into a fresh ring the first id has been evicted (FIFO) so resubmitting it
returns New, while each remaining id still classifies as Updated or Duplicate
according to its timestamp; the ring then holds exactly `k` entries. -/
theorem ring_bounded_and_fifo (k : ℕ) (hk : 0 < k) (ops : List (String × ℤ))
    (ids : ℕ → String) (ts : ℕ → ℤ)
    (hinj : ∀ i j, i ≤ k → j ≤ k → ids i = ids j → i = j) :
    (runCalls (DedupeRing.new k) ops).len ≤ k ∧
    ((runCalls (DedupeRing.new k)
        ((List.range (k+1)).map fun j => (ids j, ts j))).check_and_mark (ids 0) (ts 0)).1 =
      DedupeResult.New ∧
    (∀ j, 1 ≤ j → j ≤ k → ∀ t : ℤ,
      ((runCalls (DedupeRing.new k)
          ((List.range (k+1)).map fun j => (ids j, ts j))).check_and_mark (ids j) t).1 =
        if ts j < t then DedupeResult.Updated else DedupeResult.Duplicate) ∧
    (runCalls (DedupeRing.new k)
        ((List.range (k+1)).map fun j => (ids j, ts j))).len = k := by
  obtain ⟨hseen, hcap⟩ := runCalls_fresh k ids ts hinj k le_rfl
  have hsplit : runCalls (DedupeRing.new k) ((List.range (k+1)).map fun j => (ids j, ts j)) =
      ((runCalls (DedupeRing.new k)
        ((List.range k).map fun j => (ids j, ts j))).check_and_mark (ids k) (ts k)).2 := by
    rw [List.range_succ, List.map_append]
    simp [runCalls, List.foldl_append]
  have hfreshk : ∀ e ∈ (runCalls (DedupeRing.new k)
      ((List.range k).map fun j => (ids j, ts j))).seen, e.id ≠ ids k := by
    intro e he
    rw [hseen] at he
    simp only [List.mem_map, List.mem_range] at he
    obtain ⟨j, hj, rfl⟩ := he
    intro hcontra
    have := hinj j k (by omega) le_rfl hcontra
    omega
  have hnone : (runCalls (DedupeRing.new k)
      ((List.range k).map fun j => (ids j, ts j))).find_position (ids k) = none :=
    (findPos_eq_none_iff _ _).mpr hfreshk
  have hevict : (runCalls (DedupeRing.new k)
      ((List.range k).map fun j => (ids j, ts j))).seen.length ≥
        (runCalls (DedupeRing.new k)
          ((List.range k).map fun j => (ids j, ts j))).capacity := by
    rw [hseen, hcap]
    simp
  have hfin : (runCalls (DedupeRing.new k)
      ((List.range (k+1)).map fun j => (ids j, ts j))).seen =
      ((List.range k).map fun j => (⟨ids j, ts j⟩ : SeenEntry)).tail ++
        [⟨ids k, ts k⟩] := by
    rw [hsplit]
    simp only [DedupeRing.check_and_mark, hnone, DedupeRing.insert, hevict, if_pos, ge_iff_le]
    rw [hseen]
  obtain ⟨kk, rfl⟩ : ∃ kk, k = kk + 1 := ⟨k - 1, by omega⟩
  have htail : ((List.range (kk+1)).map fun j => (⟨ids j, ts j⟩ : SeenEntry)).tail =
      (List.range kk).map fun j => (⟨ids (j+1), ts (j+1)⟩ : SeenEntry) := by
    rw [List.range_succ_eq_map]
    simp [List.map_map, Function.comp_def]
  rw [htail] at hfin
  have hmem : ∀ e ∈ (runCalls (DedupeRing.new (kk+1))
      ((List.range (kk+1+1)).map fun j => (ids j, ts j))).seen,
      ∃ i, 1 ≤ i ∧ i ≤ kk + 1 ∧ e = ⟨ids i, ts i⟩ := by
    intro e he
    rw [hfin] at he
    simp only [List.mem_append, List.mem_map, List.mem_range, List.mem_singleton] at he
    rcases he with ⟨j, hj, rfl⟩ | rfl
    · exact ⟨j+1, by omega, by omega, rfl⟩
    · exact ⟨kk+1, by omega, le_rfl, rfl⟩
  refine ⟨?_, ?_, ?_, ?_⟩
  · exact (runCalls_inv (kk+1) hk ops (DedupeRing.new (kk+1)) rfl (by simp [DedupeRing.new])).2
  · apply check_and_mark_new_of_fresh
    intro e he
    obtain ⟨i, hi1, hi2, rfl⟩ := hmem e he
    intro hcontra
    have := hinj i 0 (by omega) (by omega) hcontra
    omega
  · intro j h1 h2 t
    rcases hfp : (runCalls (DedupeRing.new (kk+1))
        ((List.range (kk+1+1)).map fun j => (ids j, ts j))).find_position (ids j) with _ | p
    · exfalso
      have hmemj : (⟨ids j, ts j⟩ : SeenEntry) ∈ (runCalls (DedupeRing.new (kk+1))
          ((List.range (kk+1+1)).map fun j => (ids j, ts j))).seen := by
        rw [hfin]
        simp only [List.mem_append, List.mem_map, List.mem_range, List.mem_singleton]
        rcases Nat.lt_or_ge j (kk+1) with hj | hj
        · exact Or.inl ⟨j - 1, by omega, by
            have : j - 1 + 1 = j := by omega
            rw [this]⟩
        · have : j = kk + 1 := by omega
          exact Or.inr (by rw [this])
      have := (findPos_eq_none_iff (ids j) _).mp hfp _ hmemj
      simp at this
    · have hsound := findPos_sound (ids j) _ p hfp
      have hmemp : (runCalls (DedupeRing.new (kk+1))
          ((List.range (kk+1+1)).map fun j => (ids j, ts j))).seen.getD p ⟨"", 0⟩ ∈
          (runCalls (DedupeRing.new (kk+1))
            ((List.range (kk+1+1)).map fun j => (ids j, ts j))).seen := by
        rw [List.getD_eq_getElem _ _ hsound.1]
        exact List.getElem_mem hsound.1
      obtain ⟨i, hi1, hi2, he⟩ := hmem _ hmemp
      have hieq : i = j := by
        apply hinj i j (by omega) (by omega)
        rw [← hsound.2, he]
      subst hieq
      have hgd : (runCalls (DedupeRing.new (kk+1))
          ((List.range (kk+1+1)).map fun j => (ids j, ts j))).seen[p]?.getD ⟨"", 0⟩ =
          ⟨ids i, ts i⟩ := by
        simpa [List.getD] using he
      exact check_and_mark_result_of_entry _ (ids i) t (ts i) p hfp hgd
  · rw [DedupeRing.len, hfin]
    simp

/-- Witness for C2 at a concrete input: capacity 1, two distinct ids inserted,
the first id is evicted and the second still classifies by timestamp. -/
theorem ring_bounded_and_fifo_witness :
    (runCalls (DedupeRing.new 1) []).len ≤ 1 ∧
    ((runCalls (DedupeRing.new 1)
        ((List.range 2).map fun j => (wids j, (0:ℤ)))).check_and_mark (wids 0) 0).1 =
      DedupeResult.New ∧
    ((runCalls (DedupeRing.new 1)
        ((List.range 2).map fun j => (wids j, (0:ℤ)))).check_and_mark (wids 1) 5).1 =
      (if (0:ℤ) < 5 then DedupeResult.Updated else DedupeResult.Duplicate) := by
  have h := ring_bounded_and_fifo 1 (by norm_num) [] wids (fun _ => (0:ℤ))
    (by
      intro i j hi hj hh
      interval_cases i <;> interval_cases j <;> simp_all [wids, sA, sB])
  exact ⟨h.1, h.2.1, h.2.2.1 1 le_rfl le_rfl 5⟩

/-- C6: `AlertLevel::from_pga` is the six-level step function with
lower-inclusive bands: `p < 1` gives None, `[1,3)` Weak, `[3,10)` Light,
`[10,50)` Moderate, `[50,150)` Strong, and `p ≥ 150` Severe; in particular
1 maps to Weak, 3 to Light, 50 to Strong and 150 to Severe. -/
theorem from_pga_bands (p : ℚ) :
    (p < 1 → AlertLevel.from_pga p = AlertLevel.None) ∧
    (1 ≤ p → p < 3 → AlertLevel.from_pga p = AlertLevel.Weak) ∧
    (3 ≤ p → p < 10 → AlertLevel.from_pga p = AlertLevel.Light) ∧
    (10 ≤ p → p < 50 → AlertLevel.from_pga p = AlertLevel.Moderate) ∧
    (50 ≤ p → p < 150 → AlertLevel.from_pga p = AlertLevel.Strong) ∧
    (150 ≤ p → AlertLevel.from_pga p = AlertLevel.Severe) ∧
    AlertLevel.from_pga 1 = AlertLevel.Weak ∧
    AlertLevel.from_pga 3 = AlertLevel.Light ∧
    AlertLevel.from_pga 50 = AlertLevel.Strong ∧
    AlertLevel.from_pga 150 = AlertLevel.Severe := by
  refine ⟨?_, ?_, ?_, ?_, ?_, ?_, ?_, ?_, ?_, ?_⟩ <;>
    first
      | (intro h1 h2
         unfold AlertLevel.from_pga
         split_ifs <;> first | rfl | (exfalso; linarith))
      | (intro h1
         unfold AlertLevel.from_pga
         split_ifs <;> first | rfl | (exfalso; linarith))
      | (unfold AlertLevel.from_pga
         split_ifs <;> first | rfl | (exfalso; linarith))

/-- Witness for C6 at concrete inputs: applying the band theorem at 2 and at
the boundary points. -/
theorem from_pga_bands_witness :
    AlertLevel.from_pga 2 = AlertLevel.Weak ∧
    AlertLevel.from_pga 1 = AlertLevel.Weak ∧
    AlertLevel.from_pga 3 = AlertLevel.Light ∧
    AlertLevel.from_pga 50 = AlertLevel.Strong ∧
    AlertLevel.from_pga 150 = AlertLevel.Severe :=
  ⟨(from_pga_bands 2).2.1 (by norm_num) (by norm_num),
   (from_pga_bands 1).2.2.2.2.2.2.1,
   (from_pga_bands 1).2.2.2.2.2.2.2.1,
   (from_pga_bands 1).2.2.2.2.2.2.2.2.1,
   (from_pga_bands 1).2.2.2.2.2.2.2.2.2⟩

/-- C7: the magnitude estimator returns none if and only if `p < 0.1`;
otherwise it returns `log10(p) + 2.5` clamped to `[1, 9]`, so every returned
magnitude lies within `[1, 9]`, and `p = 10` yields exactly 3.5 (hence a value
near 3.5) whenever the abstracted logarithm satisfies `log10 10 = 1`. -/
theorem estimate_magnitude_spec (lg : ℚ → ℚ) (p : ℚ) :
    (estimate_magnitude_from_pga lg p = none ↔ p < 1/10) ∧
    (¬ p < 1/10 →
      estimate_magnitude_from_pga lg p = some (clampQ (lg p + 5/2) 1 9)) ∧
    (∀ m : ℚ, estimate_magnitude_from_pga lg p = some m → 1 ≤ m ∧ m ≤ 9) ∧
    (lg 10 = 1 → estimate_magnitude_from_pga lg 10 = some (7/2)) := by
  refine ⟨?_, ?_, ?_, ?_⟩
  · by_cases h : p < 1/10 <;> simp [estimate_magnitude_from_pga, h]
  · intro h
    unfold estimate_magnitude_from_pga
    rw [if_neg h]
  · intro m hm
    simp [estimate_magnitude_from_pga] at hm
    obtain ⟨-, hm⟩ := hm
    rw [← hm]
    unfold clampQ
    split_ifs <;> constructor <;> linarith
  · intro hlg
    have h10 : ¬ ((10 : ℚ) < 1/10) := by norm_num
    simp only [estimate_magnitude_from_pga, h10, if_false, hlg]
    have : clampQ (1 + 5/2) 1 9 = 7/2 := by
      unfold clampQ
      norm_num
    rw [this]

/-- Witness for C7 at a concrete input: with a logarithm sending 10 to 1 the
estimator yields exactly 3.5 at `p = 10`. -/
theorem estimate_magnitude_spec_witness :
    estimate_magnitude_from_pga (fun _ => 1) 10 = some (7/2) :=
  (estimate_magnitude_spec (fun _ => 1) 10).2.2.2 rfl

theorem check_magnitude_iff (f : EventFilter) (e : Feature) :
    f.check_magnitude e = true ↔
      ∀ m, f.min_magnitude = some m → ∃ mg, e.properties.mag = some mg ∧ m ≤ mg := by
  rcases hf : f.min_magnitude with _ | m
  · simp [EventFilter.check_magnitude, hf]
  · rcases he : e.properties.mag with _ | mg <;>
      simp [EventFilter.check_magnitude, hf, he, ge_iff_le]

theorem check_depth_iff (f : EventFilter) (e : Feature) :
    f.check_depth e = true ↔ ∀ mx, f.max_depth = some mx → e.depth_km ≤ mx := by
  rcases hf : f.max_depth with _ | mx <;> simp [EventFilter.check_depth, hf]

theorem check_bbox_iff (f : EventFilter) (e : Feature) :
    f.check_bbox e = true ↔
      ∀ b, f.bbox = some b →
        b.min_lat ≤ e.latitude ∧ e.latitude ≤ b.max_lat ∧
          b.min_lon ≤ e.longitude ∧ e.longitude ≤ b.max_lon := by
  rcases hf : f.bbox with _ | b <;>
    simp [EventFilter.check_bbox, hf, BBox.contains, ge_iff_le, and_assoc]

theorem check_radius_iff (dist : ℚ → ℚ → ℚ → ℚ → ℚ) (f : EventFilter) (e : Feature) :
    EventFilter.check_radius dist f e = true ↔
      ∀ rf, f.radius = some rf →
        dist rf.center_lat rf.center_lon e.latitude e.longitude ≤ rf.radius_km := by
  rcases hf : f.radius with _ | rf <;>
    simp [EventFilter.check_radius, hf, RadiusFilter.contains]

theorem check_significant_iff (f : EventFilter) (e : Feature) :
    f.check_significant e = true ↔
      (f.significant_only = true → e.properties.alert.isSome = true) := by
  rcases hf : f.significant_only <;>
    simp [EventFilter.check_significant, hf]

/-- C8: `matches(event)` is true if and only if all five checks pass, each
check being vacuously true when its criterion is unset: magnitude at least the
configured minimum (an event with no magnitude fails whenever a minimum is
set), depth at most the configured maximum, point inside the configured BBox,
point inside the configured radius filter, and, when significant-only is set,
the event carries an alert tier. -/
theorem matches_iff (dist : ℚ → ℚ → ℚ → ℚ → ℚ) (f : EventFilter) (e : Feature) :
    EventFilter.matches dist f e = true ↔
      ((∀ m, f.min_magnitude = some m → ∃ mg, e.properties.mag = some mg ∧ m ≤ mg) ∧
       (∀ mx, f.max_depth = some mx → e.depth_km ≤ mx) ∧
       (∀ b, f.bbox = some b →
         b.min_lat ≤ e.latitude ∧ e.latitude ≤ b.max_lat ∧
           b.min_lon ≤ e.longitude ∧ e.longitude ≤ b.max_lon) ∧
       (∀ rf, f.radius = some rf →
         dist rf.center_lat rf.center_lon e.latitude e.longitude ≤ rf.radius_km) ∧
       (f.significant_only = true → e.properties.alert.isSome = true)) := by
  rw [EventFilter.matches]
  simp only [Bool.and_eq_true, check_magnitude_iff, check_depth_iff, check_bbox_iff,
    check_radius_iff, check_significant_iff, and_assoc]

/-- Witness for C8 at a concrete input: a filter with a minimum magnitude and
significant-only set accepts an event carrying a magnitude and an alert tier. -/
theorem matches_iff_witness :
    EventFilter.matches (fun _ _ _ _ => 0)
      ({ min_magnitude := some 2, max_depth := none, bbox := none, radius := none,
         significant_only := true } : EventFilter)
      ({ id := sA, geometry := ⟨[1, 2, 3]⟩,
         properties := { mag := some 5, alert := some sB } } : Feature) = true := by
  apply (matches_iff (fun _ _ _ _ => 0) _ _).mpr
  refine ⟨?_, ?_, ?_, ?_, ?_⟩
  · intro m hm
    simp only [Option.some.injEq] at hm
    exact ⟨5, rfl, by rw [← hm]; norm_num⟩
  · intro mx hmx; simp at hmx
  · intro b hb; simp at hb
  · intro rf hrf; simp at hrf
  · intro _; rfl

/-- C10: the event coordinate accessors are total: `longitude()`, `latitude()`
and `depth_km()` return 0 for any coordinate missing from the geometry's
coordinates vector (fewer than 1, 2 or 3 elements respectively) instead of
failing, so `EventFilter::matches` treats an event with an empty coordinates
vector exactly like one located at latitude 0, longitude 0, depth 0. -/
theorem coordinate_accessors_total (e : Feature) :
    (e.geometry.coordinates.length < 1 → e.longitude = 0) ∧
    (e.geometry.coordinates.length < 2 → e.latitude = 0) ∧
    (e.geometry.coordinates.length < 3 → e.depth_km = 0) ∧
    (e.geometry.coordinates = [] →
      e.longitude = 0 ∧ e.latitude = 0 ∧ e.depth_km = 0 ∧
      ∀ (dist : ℚ → ℚ → ℚ → ℚ → ℚ) (f : EventFilter) (e2 : Feature),
        e2.geometry.coordinates = [0, 0, 0] → e2.properties = e.properties →
        EventFilter.matches dist f e = EventFilter.matches dist f e2) := by
  refine ⟨?_, ?_, ?_, ?_⟩
  · intro h
    exact List.getD_eq_default _ _ (by omega)
  · intro h
    exact List.getD_eq_default _ _ (by omega)
  · intro h
    exact List.getD_eq_default _ _ (by omega)
  · intro hc
    have hlon : e.longitude = 0 := List.getD_eq_default _ _ (by simp [hc])
    have hlat : e.latitude = 0 := List.getD_eq_default _ _ (by simp [hc])
    have hdep : e.depth_km = 0 := List.getD_eq_default _ _ (by simp [hc])
    refine ⟨hlon, hlat, hdep, ?_⟩
    intro dist f e2 hc2 hp2
    have hlon2 : e2.longitude = 0 := by simp [Feature.longitude, hc2]
    have hlat2 : e2.latitude = 0 := by simp [Feature.latitude, hc2, List.getD]
    have hdep2 : e2.depth_km = 0 := by simp [Feature.depth_km, hc2, List.getD]
    simp only [EventFilter.matches, EventFilter.check_magnitude, EventFilter.check_depth,
      EventFilter.check_bbox, EventFilter.check_radius, EventFilter.check_significant,
      hlon, hlat, hdep, hlon2, hlat2, hdep2, hp2]

/-- Witness for C10 at a concrete input: an event with an empty coordinates
vector reads as longitude 0, latitude 0, depth 0. -/
theorem coordinate_accessors_total_witness :
    (({ id := sA, geometry := ⟨[]⟩,
        properties := { mag := none, alert := none } } : Feature)).longitude = 0 ∧
    (({ id := sA, geometry := ⟨[]⟩,
        properties := { mag := none, alert := none } } : Feature)).latitude = 0 ∧
    (({ id := sA, geometry := ⟨[]⟩,
        properties := { mag := none, alert := none } } : Feature)).depth_km = 0 := by
  have h := (coordinate_accessors_total
    ({ id := sA, geometry := ⟨[]⟩,
       properties := { mag := none, alert := none } } : Feature)).2.2.2 rfl
  exact ⟨h.1, h.2.1, h.2.2.1⟩

theorem stateBefore_of_le (d : StaLtaDetector) (pga : List ℚ) (i : ℕ)
    (h : i ≤ d.lta_samples) : stateBefore d pga i = false := by
  cases i with
  | zero => rfl
  | succ m => rw [stateBefore, if_pos h]

theorem stateBefore_succ (d : StaLtaDetector) (pga : List ℚ) (i : ℕ)
    (h : d.lta_samples ≤ i) :
    stateBefore d pga (i + 1) = stepState d pga (stateBefore d pga i) i := by
  rw [stateBefore, if_neg (by omega)]

theorem detectFrom_stop (lg : ℚ → ℚ) (d : StaLtaDetector) (r : AccelerometerRecord)
    (pga : List ℚ) (n i : ℕ) (b : Bool) (h : ¬ i < n) :
    detectFrom lg d r pga n i b = [] := by
  rw [detectFrom]
  simp [h]

theorem detectFrom_step (lg : ℚ → ℚ) (d : StaLtaDetector) (r : AccelerometerRecord)
    (pga : List ℚ) (n i : ℕ) (b : Bool) (h : i < n) :
    detectFrom lg d r pga n i b =
      (if emitsAt d pga b i then [mkDetection lg d r pga i] else []) ++
        detectFrom lg d r pga n (i+1) (stepState d pga b i) := by
  rw [detectFrom, stepState, dif_pos h]
  by_cases h1 : ltaAt d pga i < 1/1000
  · rw [if_pos h1, if_pos h1, if_neg (fun hc => hc.1 h1), List.nil_append]
  · rw [if_neg h1, if_neg h1]
    by_cases h2 : b = false ∧ d.trigger_threshold < ratioAt d pga i
    · rw [if_pos h2, if_pos h2, if_pos ⟨h1, h2.1, h2.2⟩, List.singleton_append]
    · rw [if_neg h2, if_neg h2,
        if_neg (show ¬ emitsAt d pga b i from fun hc => h2 ⟨hc.2.1, hc.2.2⟩),
        List.nil_append]
      by_cases h3 : b = true ∧ ratioAt d pga i < d.detrigger_threshold
      · rw [if_pos h3, if_pos h3]
      · rw [if_neg h3, if_neg h3]

theorem detectFrom_char (lg : ℚ → ℚ) (d : StaLtaDetector) (r : AccelerometerRecord)
    (pga : List ℚ) (n : ℕ) :
    ∀ k i, n - i ≤ k → d.lta_samples ≤ i →
      detectFrom lg d r pga n i (stateBefore d pga i) =
        ((List.range' i (n - i)).filter fun j =>
          decide (emitsAt d pga (stateBefore d pga j) j)).map (mkDetection lg d r pga) := by
  intro k
  induction k with
  | zero =>
    intro i hk _
    have hni : ¬ i < n := by omega
    have h0 : n - i = 0 := by omega
    rw [detectFrom_stop lg d r pga n i _ hni, h0]
    simp
  | succ k ih =>
    intro i hk hlta
    by_cases hin : i < n
    · have hrange : List.range' i (n - i) = i :: List.range' (i+1) (n - (i+1)) := by
        have h1 : n - i = (n - (i+1)) + 1 := by omega
        rw [h1, List.range'_succ]
      rw [detectFrom_step lg d r pga n i _ hin, hrange]
      have hsb : stateBefore d pga (i+1) = stepState d pga (stateBefore d pga i) i :=
        stateBefore_succ d pga i hlta
      rw [← hsb, ih (i+1) (by omega) (by omega), List.filter_cons]
      by_cases he : emitsAt d pga (stateBefore d pga i) i
      · rw [if_pos he, if_pos (decide_eq_true he), List.map_cons, List.singleton_append]
      · rw [if_neg he, if_neg (fun hc => he (of_decide_eq_true hc)), List.nil_append]
    · have h0 : n - i = 0 := by omega
      rw [detectFrom_stop lg d r pga n i _ hin, h0]
      simp

theorem detect_eq_map (sq lg : ℚ → ℚ) (d : StaLtaDetector) (r : AccelerometerRecord)
    (h : d.lta_samples ≤ nSamples r) :
    detect sq lg d r =
      (emitIndices sq d r).map (mkDetection lg d r (pgaSeq sq r (nSamples r))) := by
  unfold detect emitIndices
  rw [if_neg (by omega)]
  have hsb : stateBefore d (pgaSeq sq r (nSamples r)) d.lta_samples = false :=
    stateBefore_of_le _ _ _ le_rfl
  conv_lhs => rw [← hsb]
  exact detectFrom_char lg d r _ (nSamples r) (nSamples r - d.lta_samples)
    d.lta_samples le_rfl le_rfl

theorem mem_emitIndices (sq : ℚ → ℚ) (d : StaLtaDetector) (r : AccelerometerRecord)
    (h : d.lta_samples ≤ nSamples r) (j : ℕ) :
    j ∈ emitIndices sq d r ↔
      d.lta_samples ≤ j ∧ j < nSamples r ∧
        emitsAt d (pgaSeq sq r (nSamples r))
          (stateBefore d (pgaSeq sq r (nSamples r)) j) j := by
  unfold emitIndices
  simp only [List.mem_filter, List.mem_range'_1, decide_eq_true_eq]
  constructor
  · rintro ⟨⟨h1, h2⟩, h3⟩
    exact ⟨h1, by omega, h3⟩
  · rintro ⟨h1, h2, h3⟩
    exact ⟨⟨h1, by omega⟩, h3⟩

theorem stateBefore_after_emit (d : StaLtaDetector) (pga : List ℚ) (j : ℕ)
    (hj : d.lta_samples ≤ j)
    (he : emitsAt d pga (stateBefore d pga j) j) :
    stateBefore d pga (j+1) = true := by
  obtain ⟨h1, h2, h3⟩ := he
  rw [stateBefore_succ d pga j hj, stepState, if_neg h1, if_pos ⟨h2, h3⟩]

theorem state_flip (d : StaLtaDetector) (pga : List ℚ) :
    ∀ b a, a ≤ b → stateBefore d pga a = true → stateBefore d pga b = false →
      ∃ m, a ≤ m ∧ m < b ∧ ¬ ltaAt d pga m < 1/1000 ∧
        ratioAt d pga m < d.detrigger_threshold := by
  intro b
  induction b with
  | zero =>
    intro a ha h1 h2
    have ha0 : a = 0 := by omega
    subst ha0
    rw [show stateBefore d pga 0 = false from rfl] at h1
    simp at h1
  | succ b ih =>
    intro a ha h1 h2
    rcases Nat.lt_or_ge a (b+1) with hab | hab
    · by_cases hb : stateBefore d pga b = true
      · have hblta : d.lta_samples ≤ b := by
          by_contra hcon
          rw [stateBefore_of_le d pga b (by omega)] at hb
          simp at hb
        rw [stateBefore_succ d pga b hblta, stepState] at h2
        by_cases s1 : ltaAt d pga b < 1/1000
        · rw [if_pos s1, hb] at h2
          simp at h2
        · rw [if_neg s1] at h2
          by_cases s2 : (stateBefore d pga b) = false ∧
              d.trigger_threshold < ratioAt d pga b
          · rw [if_pos s2] at h2
            simp at h2
          · rw [if_neg s2] at h2
            by_cases s3 : (stateBefore d pga b) = true ∧
                ratioAt d pga b < d.detrigger_threshold
            · exact ⟨b, by omega, by omega, s1, s3.2⟩
            · rw [if_neg s3, hb] at h2
              simp at h2
      · obtain ⟨m, hm1, hm2, hm3, hm4⟩ :=
          ih a (by omega) h1 (Bool.not_eq_true _ ▸ hb)
        exact ⟨m, hm1, by omega, hm3, hm4⟩
    · have hax : a = b + 1 := by omega
      subst hax
      rw [h1] at h2
      simp at h2

/-- C3: `StaLtaDetector::detect` is an edge-triggered two-state machine:
starting untriggered, it emits exactly one Detection at each evaluated index
where the state is untriggered and the STA over LTA quotient exceeds the
trigger threshold (entering the triggered state), emits nothing further while
triggered, and clears the triggered state without emitting when the quotient
falls below the detrigger threshold; hence between any two emitted Detections
of one call there is an index whose quotient is below the detrigger threshold,
and no Detection is ever emitted on a falling edge (the state is false at every
emission index). -/
theorem stalta_edge_triggered (sq lg : ℚ → ℚ) (d : StaLtaDetector)
    (r : AccelerometerRecord) (h : d.lta_samples ≤ nSamples r) :
    detect sq lg d r =
      (emitIndices sq d r).map (mkDetection lg d r (pgaSeq sq r (nSamples r))) ∧
    (∀ j, j ∈ emitIndices sq d r ↔
      (d.lta_samples ≤ j ∧ j < nSamples r ∧
        stateBefore d (pgaSeq sq r (nSamples r)) j = false ∧
        ¬ ltaAt d (pgaSeq sq r (nSamples r)) j < 1/1000 ∧
        d.trigger_threshold < ratioAt d (pgaSeq sq r (nSamples r)) j)) ∧
    (∀ j ∈ emitIndices sq d r,
      stateBefore d (pgaSeq sq r (nSamples r)) (j+1) = true) ∧
    (∀ i j, i ∈ emitIndices sq d r → j ∈ emitIndices sq d r → i < j →
      ∃ m, i < m ∧ m < j ∧
        ratioAt d (pgaSeq sq r (nSamples r)) m < d.detrigger_threshold) ∧
    (∀ j, stateBefore d (pgaSeq sq r (nSamples r)) j = true →
      j ∉ emitIndices sq d r) := by
  have hmem := mem_emitIndices sq d r h
  refine ⟨detect_eq_map sq lg d r h, ?_, ?_, ?_, ?_⟩
  · intro j
    rw [hmem j]
    constructor
    · rintro ⟨h1, h2, h3, h4, h5⟩
      exact ⟨h1, h2, h4, h3, h5⟩
    · rintro ⟨h1, h2, h3, h4, h5⟩
      exact ⟨h1, h2, h4, h3, h5⟩
  · intro j hj
    rw [hmem j] at hj
    exact stateBefore_after_emit d _ j hj.1 hj.2.2
  · intro i j hi hj hij
    rw [hmem i] at hi
    rw [hmem j] at hj
    have hs1 : stateBefore d (pgaSeq sq r (nSamples r)) (i+1) = true :=
      stateBefore_after_emit d _ i hi.1 hi.2.2
    have hs2 : stateBefore d (pgaSeq sq r (nSamples r)) j = false := hj.2.2.2.1
    obtain ⟨m, hm1, hm2, hm3, hm4⟩ :=
      state_flip d (pgaSeq sq r (nSamples r)) j (i+1) (by omega) hs1 hs2
    exact ⟨m, by omega, hm2, hm4⟩
  · intro j hst hj
    rw [hmem j] at hj
    have hfalse := hj.2.2.2.1
    rw [hst] at hfalse
    simp at hfalse

/-- Witness for C3 at a concrete input: a four-sample record with a spike,
where the detect output is exactly the mapped emission indices. -/
theorem stalta_edge_triggered_witness :
    detect sqWit lgWit dWit rWit =
      (emitIndices sqWit dWit rWit).map
        (mkDetection lgWit dWit rWit (pgaSeq sqWit rWit (nSamples rWit))) :=
  (stalta_edge_triggered sqWit lgWit dWit rWit
    (by norm_num [dWit, nSamples, rWit])).1

/-- C5: letting `n` be the minimum of the three axis sequence lengths, `detect`
returns the empty sequence when `n` is smaller than the long-window sample
count (not an error), and every emitted Detection comes from an index whose
long-term average is not below the epsilon 1/1000 — indices with a silent
baseline are skipped, so detect is total on silent or too-short input. -/
theorem detect_insufficient_and_silent (sq lg : ℚ → ℚ) (d : StaLtaDetector)
    (r : AccelerometerRecord) :
    (nSamples r < d.lta_samples → detect sq lg d r = []) ∧
    (∀ det ∈ detect sq lg d r, ∃ i, d.lta_samples ≤ i ∧ i < nSamples r ∧
      ¬ ltaAt d (pgaSeq sq r (nSamples r)) i < 1/1000 ∧
      det = mkDetection lg d r (pgaSeq sq r (nSamples r)) i) := by
  constructor
  · intro h
    unfold detect
    rw [if_pos h]
  · intro det hdet
    by_cases h : d.lta_samples ≤ nSamples r
    · rw [detect_eq_map sq lg d r h] at hdet
      simp only [List.mem_map] at hdet
      obtain ⟨j, hj, rfl⟩ := hdet
      rw [mem_emitIndices sq d r h] at hj
      exact ⟨j, hj.1, hj.2.1, hj.2.2.1, rfl⟩
    · unfold detect at hdet
      rw [if_pos (by omega)] at hdet
      simp at hdet

/-- Witness for C5 at a concrete input: a record with no samples yields no
detections. -/
theorem detect_insufficient_and_silent_witness :
    detect sqWit lgWit dWit rEmpty = [] :=
  (detect_insufficient_and_silent sqWit lgWit dWit rEmpty).1
    (by norm_num [nSamples, rEmpty, dWit])

theorem foldl_max_le (l : List ℚ) :
    ∀ a : ℚ, a ≤ l.foldl max a ∧ ∀ v ∈ l, v ≤ l.foldl max a := by
  induction l with
  | nil => intro a; simp
  | cons x xs ih =>
    intro a
    rw [List.foldl_cons]
    have h1 := (ih (max a x)).1
    refine ⟨le_trans (le_max_left a x) h1, ?_⟩
    intro v hv
    rcases List.mem_cons.mp hv with rfl | hv2
    · exact le_trans (le_max_right a v) h1
    · exact (ih (max a x)).2 v hv2

theorem foldl_max_mem (l : List ℚ) :
    ∀ a : ℚ, l.foldl max a ∈ l ∨ l.foldl max a = a := by
  induction l with
  | nil => intro a; simp
  | cons x xs ih =>
    intro a
    rw [List.foldl_cons]
    rcases ih (max a x) with h | h
    · exact Or.inl (List.mem_cons_of_mem x h)
    · by_cases hax : a ≤ x
      · left
        rw [h, max_eq_right hax]
        exact List.mem_cons_self x xs
      · right
        rw [h, max_eq_left (le_of_not_le hax)]

theorem peak_is_max (l : List ℚ) (hne : l ≠ []) (hnn : ∀ v ∈ l, 0 ≤ v) :
    l.foldl max 0 ∈ l ∧ ∀ v ∈ l, v ≤ l.foldl max 0 := by
  have hle := (foldl_max_le l 0).2
  refine ⟨?_, hle⟩
  rcases foldl_max_mem l 0 with h | h
  · exact h
  · obtain ⟨x, xs, rfl⟩ := List.exists_cons_of_ne_nil hne
    have hx0 : x = 0 :=
      le_antisymm (h ▸ hle x (List.mem_cons_self x xs))
        (hnn x (List.mem_cons_self x xs))
    rw [h, ← hx0]
    exact List.mem_cons_self x xs

theorem winSlice_length (w : ℕ) (pga : List ℚ) (i : ℕ) (h1 : w ≤ i)
    (h2 : i < pga.length) : (winSlice w pga i).length = w := by
  unfold winSlice
  rw [List.length_take, List.length_drop]
  omega

theorem winSlice_subset (w : ℕ) (pga : List ℚ) (i : ℕ) :
    ∀ v ∈ winSlice w pga i, v ∈ pga := by
  intro v hv
  exact List.mem_of_mem_drop (List.mem_of_mem_take hv)

theorem pgaSeq_length (sq : ℚ → ℚ) (r : AccelerometerRecord) (n : ℕ) :
    (pgaSeq sq r n).length = n := by
  unfold pgaSeq
  rw [List.length_map, List.length_range]

theorem pgaSeq_nonneg (sq : ℚ → ℚ) (hsq : ∀ a : ℚ, 0 ≤ sq a)
    (r : AccelerometerRecord) (n : ℕ) : ∀ v ∈ pgaSeq sq r n, 0 ≤ v := by
  intro v hv
  unfold pgaSeq at hv
  simp only [List.mem_map, List.mem_range] at hv
  obtain ⟨i, _, rfl⟩ := hv
  simpa [calculate_pga] using hsq _

/-- C4: every Detection emitted at sample index `i` carries: `pga` equal to the
maximum PGA value within the short window of `sta_samples` samples ending just
before `i` (not the instantaneous sample at `i`), timestamp equal to the
record's start time plus `i / sample_rate` seconds, the STA over LTA quotient
at `i`, the alert level obtained by `AlertLevel::from_pga` applied to that peak
PGA, and the magnitude estimate obtained from the estimator applied to that
peak PGA. -/
theorem detection_fields (sq lg : ℚ → ℚ) (d : StaLtaDetector)
    (r : AccelerometerRecord) (hsta : 0 < d.sta_samples)
    (hle : d.sta_samples ≤ d.lta_samples) (hsq : ∀ a : ℚ, 0 ≤ sq a) :
    ∀ det ∈ detect sq lg d r, ∃ i, d.lta_samples ≤ i ∧ i < nSamples r ∧
      det = mkDetection lg d r (pgaSeq sq r (nSamples r)) i ∧
      (winSlice d.sta_samples (pgaSeq sq r (nSamples r)) i).length = d.sta_samples ∧
      det.pga ∈ winSlice d.sta_samples (pgaSeq sq r (nSamples r)) i ∧
      (∀ v ∈ winSlice d.sta_samples (pgaSeq sq r (nSamples r)) i, v ≤ det.pga) ∧
      det.timestamp = r.timestamp + (i : ℚ) / r.sr ∧
      det.ratio_at_trigger =
        staAt d (pgaSeq sq r (nSamples r)) i / ltaAt d (pgaSeq sq r (nSamples r)) i ∧
      det.alert_level = AlertLevel.from_pga det.pga ∧
      det.estimated_magnitude = estimate_magnitude_from_pga lg det.pga ∧
      det.device_id = r.device_id := by
  intro det hdet
  have hex : ∃ i, d.lta_samples ≤ i ∧ i < nSamples r ∧
      det = mkDetection lg d r (pgaSeq sq r (nSamples r)) i := by
    by_cases h : d.lta_samples ≤ nSamples r
    · rw [detect_eq_map sq lg d r h] at hdet
      simp only [List.mem_map] at hdet
      obtain ⟨j, hj, rfl⟩ := hdet
      rw [mem_emitIndices sq d r h] at hj
      exact ⟨j, hj.1, hj.2.1, rfl⟩
    · unfold detect at hdet
      rw [if_pos (by omega)] at hdet
      simp at hdet
  obtain ⟨i, hi1, hi2, rfl⟩ := hex
  have hwlen : (winSlice d.sta_samples (pgaSeq sq r (nSamples r)) i).length =
      d.sta_samples :=
    winSlice_length _ _ _ (by omega) (by rw [pgaSeq_length]; omega)
  have hwne : winSlice d.sta_samples (pgaSeq sq r (nSamples r)) i ≠ [] := by
    intro hnil
    rw [hnil] at hwlen
    simp at hwlen
    omega
  have hwnn : ∀ v ∈ winSlice d.sta_samples (pgaSeq sq r (nSamples r)) i, 0 ≤ v :=
    fun v hv => pgaSeq_nonneg sq hsq r _ v (winSlice_subset _ _ _ v hv)
  have hpk := peak_is_max _ hwne hwnn
  have hpga : (mkDetection lg d r (pgaSeq sq r (nSamples r)) i).pga =
      (winSlice d.sta_samples (pgaSeq sq r (nSamples r)) i).foldl max 0 := rfl
  refine ⟨i, hi1, hi2, rfl, hwlen, ?_, ?_, rfl, rfl, rfl, rfl, rfl⟩
  · rw [hpga]
    exact hpk.1
  · intro v hv
    rw [hpga]
    exact hpk.2 v hv

/-- Witness for C4 at a concrete input: the detection emitted at index 3 of the
spike record carries the short-window peak and the derived fields. -/
theorem detection_fields_witness :
    ∃ i, dWit.lta_samples ≤ i ∧ i < nSamples rWit ∧
      mkDetection lgWit dWit rWit (pgaSeq sqWit rWit (nSamples rWit)) 3 =
        mkDetection lgWit dWit rWit (pgaSeq sqWit rWit (nSamples rWit)) i ∧
      (winSlice dWit.sta_samples (pgaSeq sqWit rWit (nSamples rWit)) i).length =
        dWit.sta_samples ∧
      (mkDetection lgWit dWit rWit (pgaSeq sqWit rWit (nSamples rWit)) 3).pga ∈
        winSlice dWit.sta_samples (pgaSeq sqWit rWit (nSamples rWit)) i ∧
      (∀ v ∈ winSlice dWit.sta_samples (pgaSeq sqWit rWit (nSamples rWit)) i,
        v ≤ (mkDetection lgWit dWit rWit (pgaSeq sqWit rWit (nSamples rWit)) 3).pga) ∧
      (mkDetection lgWit dWit rWit (pgaSeq sqWit rWit (nSamples rWit)) 3).timestamp =
        rWit.timestamp + (i : ℚ) / rWit.sr ∧
      (mkDetection lgWit dWit rWit
          (pgaSeq sqWit rWit (nSamples rWit)) 3).ratio_at_trigger =
        staAt dWit (pgaSeq sqWit rWit (nSamples rWit)) i /
          ltaAt dWit (pgaSeq sqWit rWit (nSamples rWit)) i ∧
      (mkDetection lgWit dWit rWit (pgaSeq sqWit rWit (nSamples rWit)) 3).alert_level =
        AlertLevel.from_pga
          (mkDetection lgWit dWit rWit (pgaSeq sqWit rWit (nSamples rWit)) 3).pga ∧
      (mkDetection lgWit dWit rWit
          (pgaSeq sqWit rWit (nSamples rWit)) 3).estimated_magnitude =
        estimate_magnitude_from_pga lgWit
          (mkDetection lgWit dWit rWit (pgaSeq sqWit rWit (nSamples rWit)) 3).pga ∧
      (mkDetection lgWit dWit rWit (pgaSeq sqWit rWit (nSamples rWit)) 3).device_id =
        rWit.device_id := by
  have hge : dWit.lta_samples ≤ nSamples rWit := by norm_num [dWit, nSamples, rWit]
  have hn : nSamples rWit = 4 := by norm_num [nSamples, rWit]
  have hpga : pgaSeq sqWit rWit (nSamples rWit) = [1, 1, 9, 9] := by
    rw [hn]
    unfold pgaSeq
    rw [show List.range 4 = [0, 1, 2, 3] from rfl]
    norm_num [calculate_pga, rWit, sqWit]
  have hsb3 : stateBefore dWit (pgaSeq sqWit rWit (nSamples rWit)) 3 = false := by
    rw [hpga, show (3:ℕ) = 2 + 1 from rfl,
      stateBefore_succ dWit _ 2 (by norm_num [dWit]),
      stateBefore_of_le dWit _ 2 (by norm_num [dWit]), stepState]
    rw [if_neg (by norm_num [ltaAt, winSlice, dWit])]
    rw [if_neg (by norm_num [ratioAt, staAt, ltaAt, winSlice, dWit])]
    rw [if_neg (by simp)]
  have hmem3 : 3 ∈ emitIndices sqWit dWit rWit := by
    rw [mem_emitIndices sqWit dWit rWit hge 3]
    refine ⟨by norm_num [dWit], by rw [hn]; norm_num, ?_, hsb3, ?_⟩
    · rw [hpga]
      norm_num [ltaAt, winSlice, dWit]
    · rw [hpga]
      norm_num [ratioAt, staAt, ltaAt, winSlice, dWit]
  apply detection_fields sqWit lgWit dWit rWit (by norm_num [dWit])
    (by norm_num [dWit]) (by intro a; simp [sqWit])
  rw [detect_eq_map sqWit lgWit dWit rWit hge]
  exact List.mem_map_of_mem _ hmem3
